import Mathlib

/-!
# Verification of the EHCP document-assembly core

A shallow embedding, in Lean 4, of the algorithmic core of
`src/ehcp_autogen/utils/utils.py`:

* the feedback parser `parse_feedback_and_count_issues`,
* the geometry classifier `_is_element_in_regions`,
* the table formatter `_format_table_as_markdown`,
* the document reconstructor (fallback path of `analyse_document_with_di`),
* the merge planner `merge_output_files_async`.

Python strings are modelled as `String` / `List Char` (the regex character
classes `\w`, `\s`, `\d` are modelled by their ASCII meaning, which is exact
on every input considered here).  Floating-point coordinates are modelled by
`ℚ`: the code only ever compares coordinates with `min` / `max` / `<` / `>`,
and those operations on IEEE floats agree with the rational order.  Python
exceptions are modelled by `Option` (`none` = an exception escaped to the
enclosing handler); Python `dict`s are modelled by ordered association
lists, which preserves both the key set and the insertion/update semantics.
-/

/-! ## Character and string helpers -/

/-- ASCII model of the Python regex class `\w` (used by `(\w+):\s*(\d+)`). -/
def isWordChar (c : Char) : Bool :=
  c.isAlphanum || c = '_'

/-- ASCII model of Python whitespace (`str.strip`, regex `\s`). -/
def isSpaceChar (c : Char) : Bool :=
  c = ' ' || c = '\t' || c = '\n' || c = '\r' || c = '\x0b' || c = '\x0c'

/-- Model of Python `str.strip()`: remove leading and trailing whitespace. -/
def stripWs (l : List Char) : List Char :=
  ((l.dropWhile isSpaceChar).reverse.dropWhile isSpaceChar).reverse

/-- Value of a (non-empty) digit run, as Python `int()` computes it. -/
def natOfDigits (l : List Char) : Nat :=
  l.foldl (fun n c => n * 10 + (c.toNat - '0'.toNat)) 0

/-- Lower-case a key, as Python `str.lower()` does (ASCII model). -/
def lowerStr (l : List Char) : List Char :=
  l.map Char.toLower

/-! ## The feedback parser (`parse_feedback_and_count_issues`)

The summary block is located by the regex
`\[FEEDBACK_SUMMARY\](.*?)\[END_FEEDBACK_SUMMARY\]` under `re.DOTALL`:
the match starts at the leftmost position where the start marker is
followed (somewhere later) by the end marker, and the non-greedy `.*?`
makes the block end at the first end marker after the start marker. -/

/-- Split a character list at the first occurrence of `marker`, returning the
text before it and the text after it, or `none` when `marker` is absent. -/
def splitAtSub (marker : List Char) : List Char → Option (List Char × List Char)
  | [] => if marker.isEmpty then some ([], []) else none
  | c :: rest =>
    if marker.isPrefixOf (c :: rest) then
      some ([], (c :: rest).drop marker.length)
    else
      match splitAtSub marker rest with
      | some (pre, post) => some (c :: pre, post)
      | none => none

def summaryStartMarker : List Char := "[FEEDBACK_SUMMARY]".data

def summaryEndMarker : List Char := "[END_FEEDBACK_SUMMARY]".data

/-- Locate the delimited `[FEEDBACK_SUMMARY] … [END_FEEDBACK_SUMMARY]` block,
with the leftmost-start, shortest-block semantics of `re.search` with a
non-greedy body. -/
def extractBlock : List Char → Option (List Char)
  | [] => none
  | c :: rest =>
    if summaryStartMarker.isPrefixOf (c :: rest) then
      match splitAtSub summaryEndMarker ((c :: rest).drop summaryStartMarker.length) with
      | some (block, _) => some block
      | none => extractBlock rest
    else extractBlock rest

/-- The scanner of `re.findall(r"(\w+):\s*(\d+)", block)`: at each position,
a maximal `\w+` run followed by `:`, optional whitespace and a maximal
non-empty digit run produces a match, and scanning resumes after the digits;
on failure scanning retries one character later.  (For this pattern the
greedy/backtracking semantics coincide with this maximal-munch scan, because
`\w`/`:` and `\s`/`\d` are disjoint character classes.) -/
def scanKV : List Char → List (List Char × List Char)
  | [] => []
  | c :: rest =>
    if isWordChar c then
      match h : rest.dropWhile isWordChar with
      | ':' :: r2 =>
        if ((r2.dropWhile isSpaceChar).takeWhile Char.isDigit).isEmpty then
          scanKV rest
        else
          (c :: rest.takeWhile isWordChar,
            (r2.dropWhile isSpaceChar).takeWhile Char.isDigit)
            :: scanKV ((r2.dropWhile isSpaceChar).dropWhile Char.isDigit)
      | _ => scanKV rest
    else scanKV rest
termination_by l => l.length
decreasing_by
  · simp only [List.length_cons]
    omega
  · have h1 : ((r2.dropWhile isSpaceChar).dropWhile Char.isDigit).length ≤
        (r2.dropWhile isSpaceChar).length := (List.dropWhile_sublist _).length_le
    have h2 : (r2.dropWhile isSpaceChar).length ≤ r2.length :=
      (List.dropWhile_sublist _).length_le
    have h3 : (':' :: r2).length ≤ rest.length := by
      rw [← h]; exact (List.dropWhile_sublist _).length_le
    simp only [List.length_cons] at h3 ⊢
    omega
  · simp only [List.length_cons]
    omega
  · simp only [List.length_cons]
    omega

/-- `counts[key] = value` on the Python `dict`, modelled on an ordered
association list: only an already-present key is overwritten, in place. -/
def setIfPresent (l : List (String × Nat)) (k : String) (v : Nat) :
    List (String × Nat) :=
  l.map (fun p => if p.1 = k then (k, v) else p)

/-- `key.strip().lower()` applied to a scanned key. -/
def normKey (k : List Char) : String :=
  String.mk (lowerStr (stripWs k))

/-- `parse_feedback_and_count_issues` from `utils.py`.  The result models the
returned Python `dict` as an ordered association list.  Note the two return
shapes of the source: the forced-retry sentinel carries the keys
`critical`/`major`/`minor`, while the normal path carries
`critical`/`standard`. -/
def parse_feedback_and_count_issues (feedback_content : String) :
    List (String × Nat) :=
  if feedback_content.data = [] ∨
      "ERROR:".data.isPrefixOf (stripWs feedback_content.data) then
    [("critical", 99), ("major", 99), ("minor", 99)]
  else
    match extractBlock feedback_content.data with
    | none => [("critical", 0), ("standard", 0)]
    | some block =>
      (scanKV block).foldl
        (fun acc kv => setIfPresent acc (normKey kv.1) (natOfDigits (stripWs kv.2)))
        [("critical", 0), ("standard", 0)]

/-- Spec-side description of the parsed value for one recognized key: the
integer of the last `key: integer` pair of the block whose (lower-cased) key
matches, with default `0`. -/
def lastReportedValue (k : String) (block : List Char) : Nat :=
  (((scanKV block).filter (fun kv => normKey kv.1 = k)).map
    (fun kv => natOfDigits (stripWs kv.2))).getLastD 0

/-! ## Geometry: bounding regions and the overlap classifier -/

/-- A Document Intelligence bounding region: a page number and a flat polygon
coordinate list `[x0, y0, x1, y1, …]` (as the source indexes it with
`polygon[0::2]` / `polygon[1::2]`). -/
structure BoundingRegion where
  page_number : Int
  polygon : List ℚ
deriving DecidableEq

/-- `l[0::2]`: the entries at even indices. -/
def evenIdxEntries : List ℚ → List ℚ
  | [] => []
  | [x] => [x]
  | x :: _ :: rest => x :: evenIdxEntries rest

/-- Python `min` over a list: fails (exception) on an empty list. -/
def minList : List ℚ → Option ℚ
  | [] => none
  | x :: rest => some (rest.foldl min x)

/-- Python `max` over a list: fails (exception) on an empty list. -/
def maxList : List ℚ → Option ℚ
  | [] => none
  | x :: rest => some (rest.foldl max x)

/-- The derived axis-aligned bounding box of a polygon. -/
structure Box where
  xmin : ℚ
  xmax : ℚ
  ymin : ℚ
  ymax : ℚ
deriving DecidableEq

/-- `min/max` over `polygon[0::2]` and `polygon[1::2]`; `none` models the
`ValueError` that `min`/`max` raise when a coordinate list is empty. -/
def boxOf (poly : List ℚ) : Option Box := do
  let xmin ← minList (evenIdxEntries poly)
  let xmax ← maxList (evenIdxEntries poly)
  let ymin ← minList (evenIdxEntries (poly.drop 1))
  let ymax ← maxList (evenIdxEntries (poly.drop 1))
  pure ⟨xmin, xmax, ymin, ymax⟩

/-- The strict-inequality overlap test on the two derived boxes
(`x_overlap and y_overlap` in the source). -/
def boxesOverlap (a b : Box) : Bool :=
  decide (a.xmin < b.xmax ∧ a.xmax > b.xmin ∧ a.ymin < b.ymax ∧ a.ymax > b.ymin)

/-- The loop of `_is_element_in_regions` over `all_table_regions`: regions on
another page are skipped before their box is computed; the first same-page
overlapping region returns `True`; `none` models an exception escaping. -/
def regionOverlapLoop (page : Int) (ebox : Box) :
    List BoundingRegion → Option Bool
  | [] => some false
  | t :: rest =>
    if t.page_number ≠ page then regionOverlapLoop page ebox rest
    else
      match boxOf t.polygon with
      | none => none
      | some tbox =>
        if boxesOverlap ebox tbox then some true
        else regionOverlapLoop page ebox rest

/-- `_is_element_in_regions` from `utils.py`, abstracted over the element's
`bounding_regions` list.  An element with no bounding region is reported as
not in any table; otherwise only the first region is consulted. -/
def _is_element_in_regions (elemRegions : List BoundingRegion)
    (all_table_regions : List BoundingRegion) : Option Bool :=
  match elemRegions.head? with
  | none => some false
  | some r =>
    match boxOf r.polygon with
    | none => none
    | some ebox => regionOverlapLoop r.page_number ebox all_table_regions

/-! ## The table formatter (`_format_table_as_markdown`) -/

structure TableCell where
  row_index : Nat
  column_index : Nat
  content : String
deriving DecidableEq

structure DITable where
  row_count : Nat
  column_count : Nat
  cells : List TableCell
  bounding_regions : List BoundingRegion
deriving DecidableEq

/-- `cell.content.replace('\n', ' ').strip()`. -/
def cleanCellContent (s : String) : String :=
  String.mk (stripWs (s.data.map (fun c => if c = '\n' then ' ' else c)))

/-- One step of the cell-placement loop: a cell is written into the grid only
when both indices are within the declared bounds, else silently dropped. -/
def placeCell (grid : List (List String)) (cell : TableCell) :
    List (List String) :=
  if cell.row_index < grid.length &&
      cell.column_index < (grid.headD []).length then
    grid.set cell.row_index
      ((grid.getD cell.row_index []).set cell.column_index
        (cleanCellContent cell.content))
  else grid

/-- `_format_table_as_markdown` from `utils.py`.  `none` models the
`IndexError` raised by `table.bounding_regions[0]` when a non-empty grid is
formatted for a table without bounding regions. -/
def _format_table_as_markdown (table : DITable) : Option String :=
  let grid := table.cells.foldl placeCell
    (List.replicate table.row_count (List.replicate table.column_count ""))
  if grid.isEmpty then some ""
  else
    match table.bounding_regions.head? with
    | none => none
    | some r =>
      let header := String.intercalate " | " (grid.headD [])
      let sepRow := String.intercalate " | "
        (List.replicate (grid.headD []).length "---")
      some ("\n### Table (Page " ++ toString r.page_number ++ ")\n"
        ++ "| " ++ header ++ " |\n"
        ++ "| " ++ sepRow ++ " |\n"
        ++ (grid.tail.foldl
              (fun acc row => acc ++ "| " ++ String.intercalate " | " row ++ " |\n")
              "")
        ++ "\n")

/-! ## The document reconstructor (fallback path of `analyse_document_with_di`)

Only the pre-built/layout path (PATH 2 of the source) is modelled: a
`DIResult` here is an analysis result whose `documents` field is empty, so
that the geometric paragraph/table reconstruction runs. -/

structure Paragraph where
  content : String
  bounding_regions : List BoundingRegion
deriving DecidableEq

structure DIResult where
  tables : List DITable
  paragraphs : List Paragraph
deriving DecidableEq

/-- An entry of the `all_elements` list: the element plus its reading-order
key `(page, y_pos)`. -/
inductive ElemEntry where
  | table (t : DITable) (page : Int) (y : ℚ)
  | para (content : String) (page : Int) (y : ℚ)
deriving DecidableEq

def ElemEntry.page : ElemEntry → Int
  | .table _ p _ => p
  | .para _ p _ => p

def ElemEntry.yPos : ElemEntry → ℚ
  | .table _ _ y => y
  | .para _ _ y => y

/-- The paragraph content carried by an entry, when it is a paragraph. -/
def ElemEntry.paraContent? : ElemEntry → Option String
  | .table _ _ _ => none
  | .para c _ _ => some c

/-- `table_regions`: every bounding region of every table, flattened
(`table_regions.extend(table.bounding_regions)`). -/
def allTableRegions (tables : List DITable) : List BoundingRegion :=
  tables.foldl (fun acc t => acc ++ t.bounding_regions) []

/-- The tables loop: each table is tagged with the page and top-edge y of its
first bounding region (`bounding_regions[0].polygon[1]`); `none` models the
`IndexError` on a table without regions or with a polygon shorter than 2. -/
def tableEntries : List DITable → Option (List ElemEntry)
  | [] => some []
  | t :: rest => do
    let r ← t.bounding_regions.head?
    let y ← r.polygon[1]?
    let tail ← tableEntries rest
    pure (.table t r.page_number y :: tail)

/-- The paragraphs loop: a paragraph classified as inside a table region is
skipped; a kept paragraph is tagged with the page and top-edge y of its first
bounding region (`none` models the exceptions of either step). -/
def paraEntries (tableRegions : List BoundingRegion) :
    List Paragraph → Option (List ElemEntry)
  | [] => some []
  | p :: rest => do
    let inTable ← _is_element_in_regions p.bounding_regions tableRegions
    if inTable then paraEntries tableRegions rest
    else do
      let r ← p.bounding_regions.head?
      let y ← r.polygon[1]?
      let tail ← paraEntries tableRegions rest
      pure (.para p.content r.page_number y :: tail)

/-- The `all_elements` list before sorting: tables first, then the kept
paragraphs, each group in extraction order. -/
def buildElements (result : DIResult) : Option (List ElemEntry) := do
  let te ← tableEntries result.tables
  let pe ← paraEntries (allTableRegions result.tables) result.paragraphs
  pure (te ++ pe)

/-- The reading-order total preorder on entries: lexicographic on
`(page, y_pos)`, with ties allowed. -/
def readingOrderLE (a b : ElemEntry) : Prop :=
  a.page < b.page ∨ (a.page = b.page ∧ a.yPos ≤ b.yPos)

instance : DecidableRel readingOrderLE := fun a b =>
  inferInstanceAs (Decidable (_ ∨ _))

instance : IsTotal ElemEntry readingOrderLE where
  total a b := by
    unfold readingOrderLE
    rcases lt_trichotomy a.page b.page with h | h | h
    · exact Or.inl (Or.inl h)
    · rcases le_total a.yPos b.yPos with hy | hy
      · exact Or.inl (Or.inr ⟨h, hy⟩)
      · exact Or.inr (Or.inr ⟨h.symm, hy⟩)
    · exact Or.inr (Or.inl h)

instance : IsTrans ElemEntry readingOrderLE where
  trans a b c hab hbc := by
    unfold readingOrderLE at *
    rcases hab with h1 | ⟨h1, h2⟩ <;> rcases hbc with h3 | ⟨h3, h4⟩
    · exact Or.inl (lt_trans h1 h3)
    · exact Or.inl (h3 ▸ h1)
    · exact Or.inl (by rw [h1]; exact h3)
    · exact Or.inr ⟨h1.trans h3, le_trans h2 h4⟩

/-- `all_elements.sort(key=lambda item: (item['page'], item['y_pos']))`:
Python's sort is the unique stable sort by the key total preorder, which is
what a stable insertion sort by the same preorder computes. -/
def sortElements (es : List ElemEntry) : List ElemEntry :=
  es.insertionSort readingOrderLE

/-- The rendering loop: a paragraph renders as its content plus a blank line,
a table renders through the table formatter. -/
def renderElements : List ElemEntry → Option String
  | [] => some ""
  | .para c _ _ :: rest => do
    let tail ← renderElements rest
    pure (c ++ "\n\n" ++ tail)
  | .table t _ _ :: rest => do
    let m ← _format_table_as_markdown t
    let tail ← renderElements rest
    pure (m ++ tail)

/-- The body of the geometric path of `analyse_document_with_di`. -/
def analyseGeometric (result : DIResult) : Option String := do
  let es ← buildElements result
  renderElements (sortElements es)

/-- `analyse_document_with_di` from `utils.py` (fallback path): the header
line plus the reconstructed stream; the enclosing `except` handler turns any
exception into an empty-string result. -/
def analyse_document_with_di (blob_name : String) (result : DIResult) :
    String :=
  match analyseGeometric result with
  | some body => "# Analysis of Document: " ++ blob_name ++ "\n\n" ++ body
  | none => ""

/-! ## The merge planner (`merge_output_files_async`)

The blob store is abstracted as the listing `blobs` and a pure retrieval
function `content`; `config.TOTAL_SECTIONS` is the parameter `total`.
Success returns `some` of the merged document, `none` models the
failure return (`return False`), where no document is uploaded. -/

/-- `re.compile(r'output_s(\d+)_i(\d+)\.md').match(name)`: anchored at the
start of the name only, so trailing characters after `.md` are allowed. -/
def afterLiteral (lit l : List Char) : Option (List Char) :=
  if lit.isPrefixOf l then some (l.drop lit.length) else none

/-- A maximal non-empty digit run and the rest. -/
def takeDigits (l : List Char) : Option (Nat × List Char) :=
  if (l.takeWhile Char.isDigit).isEmpty then none
  else some (natOfDigits (l.takeWhile Char.isDigit), l.dropWhile Char.isDigit)

/-- Parse `(section_id, iteration)` from a versioned draft name. -/
def parseSectionIter (name : String) : Option (Nat × Nat) := do
  let r1 ← afterLiteral "output_s".data name.data
  let (s, r2) ← takeDigits r1
  let r3 ← afterLiteral "_i".data r2
  let (i, r4) ← takeDigits r3
  let _ ← afterLiteral ".md".data r4
  pure (s, i)

/-- The parsed `(section_id, name, iteration)` triples of a listing, in
listing order. -/
def draftEntries (blobs : List String) : List (Nat × String × Nat) :=
  blobs.filterMap (fun n => (parseSectionIter n).map (fun si => (si.1, n, si.2)))

/-- The `latest_iterations` dict update: a new section is appended; an
existing section is overwritten in place only by a strictly greater
iteration. -/
def updateLatest : List (Nat × String × Nat) → Nat → String → Nat →
    List (Nat × String × Nat)
  | [], s, n, i => [(s, n, i)]
  | e :: rest, s, n, i =>
    if e.1 = s then
      if i > e.2.2 then (s, n, i) :: rest else e :: rest
    else e :: updateLatest rest s n i

/-- One iteration of the listing loop of `merge_output_files_async`. -/
def recordDraft (acc : List (Nat × String × Nat)) (name : String) :
    List (Nat × String × Nat) :=
  match parseSectionIter name with
  | none => acc
  | some (s, i) => updateLatest acc s name i

/-- The `latest_iterations` dict after the listing loop, as an ordered
association list `section ↦ (name, iteration)`. -/
def latestTable (blobs : List String) : List (Nat × String × Nat) :=
  blobs.foldl recordDraft []

/-- The ascending-section order used by `sorted(latest_iterations.items())`
(keys are unique, so Python's tuple comparison never reaches the values). -/
def sectionLE (a b : Nat × String × Nat) : Prop :=
  a.1 ≤ b.1

instance : DecidableRel sectionLE := fun a b =>
  inferInstanceAs (Decidable (_ ≤ _))

instance : IsTotal (Nat × String × Nat) sectionLE where
  total a b := Nat.le_total a.1 b.1

instance : IsTrans (Nat × String × Nat) sectionLE where
  trans _ _ _ hab hbc := Nat.le_trans hab hbc

/-- `sorted(latest_iterations.items())`: the items in ascending section
order. -/
def sortedLatest (blobs : List String) : List (Nat × String × Nat) :=
  (latestTable blobs).insertionSort sectionLE

/-- The fixed separator `"\n\n---\n\n".join(full_content)`. -/
def mergeSeparator : String := "\n\n---\n\n"

/-- `merge_output_files_async` from `utils.py`: fails when the number of
sections found differs from `total` (`len(latest_iterations) !=
config.TOTAL_SECTIONS`), else joins the winning drafts' contents in
ascending section order. -/
def merge_output_files_async (total : Nat) (content : String → String)
    (blobs : List String) : Option String :=
  if (latestTable blobs).length ≠ total then none
  else some (String.intercalate mergeSeparator
    ((sortedLatest blobs).map (fun e => content e.2.1)))

/-- Spec-side form of the geometric hypothesis of the exclusivity property:
the element's first bounding region derives a box that passes the
strict-inequality overlap test against the box of at least one same-page
table region.  (Stated as a Boolean so concrete instances evaluate.) -/
def paragraphOverlapsTables (p : Paragraph) (tables : List DITable) : Bool :=
  match p.bounding_regions.head? with
  | none => false
  | some r =>
    match boxOf r.polygon with
    | none => false
    | some eb =>
      (allTableRegions tables).any (fun tr =>
        tr.page_number == r.page_number &&
          match boxOf tr.polygon with
          | none => false
          | some tb => boxesOverlap eb tb)

/-- Association-list lookup on the `latest_iterations` dict:
`section ↦ (name, iteration)` (first matching key, as in a Python dict,
whose keys are unique). -/
def lookupSec (s : Nat) : List (Nat × String × Nat) → Option (String × Nat)
  | [] => none
  | e :: rest => if e.1 = s then some e.2 else lookupSec s rest

/-- Spec-side single-section view of the update rule: what the dict holds
for section `s` after one more parsed entry. -/
def stepSel (s : Nat) (cur : Option (String × Nat)) (e : Nat × String × Nat) :
    Option (String × Nat) :=
  if e.1 = s then
    match cur with
    | none => some e.2
    | some b => if e.2.2 > b.2 then some e.2 else some b
  else cur

/-! ## Supporting lemmas: text helpers -/

/-- A string whose `strip()` is empty consists of whitespace only. -/
theorem all_space_of_stripWs_eq_nil {l : List Char} (h : stripWs l = []) :
    ∀ c ∈ l, isSpaceChar c = true := by
  intro c hc
  unfold stripWs at h
  rw [List.reverse_eq_nil_iff, List.dropWhile_eq_nil_iff] at h
  have hd : ∀ x ∈ l.dropWhile isSpaceChar, isSpaceChar x = true := by
    intro x hx
    exact h x (List.mem_reverse.mpr hx)
  have hsplit : c ∈ l.takeWhile isSpaceChar ++ l.dropWhile isSpaceChar := by
    rw [List.takeWhile_append_dropWhile]
    exact hc
  rcases List.mem_append.mp hsplit with h1 | h2
  · exact List.mem_takeWhile_imp h1
  · exact hd c h2

/-- No summary block can be found in whitespace-only text: the start marker
begins with `[`, which is not whitespace. -/
theorem extractBlock_eq_none_of_all_space {l : List Char}
    (h : ∀ c ∈ l, isSpaceChar c = true) : extractBlock l = none := by
  induction l with
  | nil => rfl
  | cons c rest ih =>
    have hc : isSpaceChar c = true := h c (List.mem_cons_self c rest)
    have hne : summaryStartMarker.isPrefixOf (c :: rest) = false := by
      have : ('[' == c) = false := by
        cases c with
        | mk v hv =>
          by_contra hcontra
          rw [Bool.not_eq_false, beq_iff_eq] at hcontra
          rw [← hcontra] at hc
          simp [isSpaceChar] at hc
      show (('[' == c) && _) = false
      rw [this, Bool.false_and]
    rw [extractBlock, hne]
    exact ih (fun x hx => h x (List.mem_cons_of_mem c hx))

/-- A non-empty string has a non-empty character list. -/
theorem data_ne_nil_of_ne_empty {s : String} (h : s ≠ "") : s.data ≠ [] := by
  intro hd
  exact h (String.ext hd)

/-! ## Supporting lemmas: the counts fold of the feedback parser -/

/-- `"critical" ≠ "standard"`. -/
theorem critical_ne_standard : ("critical" : String) ≠ "standard" := by decide

/-- Overwriting one key of the two-key counts dict. -/
theorem setIfPresent_two (c0 s0 : Nat) (k : String) (v : Nat) :
    setIfPresent [("critical", c0), ("standard", s0)] k v =
      [("critical", if k = "critical" then v else c0),
       ("standard", if k = "standard" then v else s0)] := by
  by_cases h1 : k = "critical"
  · subst h1
    simp [setIfPresent, critical_ne_standard, critical_ne_standard.symm]
  · by_cases h2 : k = "standard"
    · subst h2
      simp [setIfPresent, critical_ne_standard, critical_ne_standard.symm]
    · simp [setIfPresent, h1, h2, Ne.symm h1, Ne.symm h2]

/-- The counts fold keeps exactly the keys `critical` and `standard`, each
holding the value of the last matching scanned pair (defaulting to the
accumulator seed); all other scanned keys are ignored. -/
theorem counts_foldl_eq (kvs : List (List Char × List Char)) :
    ∀ c0 s0 : Nat,
      kvs.foldl
        (fun acc kv => setIfPresent acc (normKey kv.1) (natOfDigits (stripWs kv.2)))
        [("critical", c0), ("standard", s0)] =
      [("critical",
          kvs.foldl
            (fun v kv => if normKey kv.1 = "critical" then natOfDigits (stripWs kv.2) else v) c0),
       ("standard",
          kvs.foldl
            (fun v kv => if normKey kv.1 = "standard" then natOfDigits (stripWs kv.2) else v) s0)] := by
  induction kvs with
  | nil => intro c0 s0; rfl
  | cons kv rest ih =>
    intro c0 s0
    rw [List.foldl_cons, List.foldl_cons, List.foldl_cons, setIfPresent_two]
    exact ih _ _

/-- The last-matching-value fold agrees with the filter/getLast description
used by `lastReportedValue`. -/
theorem lastValue_foldl_eq (k : String) (kvs : List (List Char × List Char)) :
    ∀ v0 : Nat,
      kvs.foldl (fun v kv => if normKey kv.1 = k then natOfDigits (stripWs kv.2) else v) v0 =
        (((kvs.filter (fun kv => normKey kv.1 = k)).map
          (fun kv => natOfDigits (stripWs kv.2))).getLastD v0) := by
  induction kvs with
  | nil => intro v0; rfl
  | cons kv rest ih =>
    intro v0
    rw [List.foldl_cons]
    by_cases h : normKey kv.1 = k
    · have hf : List.filter (fun kv => decide (normKey kv.1 = k)) (kv :: rest) =
          kv :: List.filter (fun kv => decide (normKey kv.1 = k)) rest := by
        simp [List.filter_cons, h]
      rw [if_pos h, hf, List.map_cons, List.getLastD_cons]
      exact ih _
    · have hf : List.filter (fun kv => decide (normKey kv.1 = k)) (kv :: rest) =
          List.filter (fun kv => decide (normKey kv.1 = k)) rest := by
        simp [List.filter_cons, h]
      rw [if_neg h, hf]
      exact ih v0

/-! ## Claim C2 -/

/-- C2 (counterexample): the claim predicts that a whitespace-only report
parses to the `{critical: 99, standard: 99}` sentinel; in fact `" "` is a
truthy Python string, does not short-circuit, and parses to the all-zero
counts, and even the genuine short-circuit result (for `""`) carries no
`standard` key at all. -/
theorem c2_counterexample :
    parse_feedback_and_count_issues " " = [("critical", 0), ("standard", 0)] ∧
    parse_feedback_and_count_issues " " ≠ [("critical", 99), ("standard", 99)] ∧
    (parse_feedback_and_count_issues "").lookup "standard" = none := by
  decide

/-- C2 (amended): the parser short-circuits exactly for the empty string or
a string whose stripped content starts with `ERROR:`, returning
`{critical: 99, major: 99, minor: 99}` (no `standard` key); a non-empty
whitespace-only report instead falls through to scanning, finds no summary
block, and returns `{critical: 0, standard: 0}`. -/
theorem c2_short_circuit :
    parse_feedback_and_count_issues "" =
      [("critical", 99), ("major", 99), ("minor", 99)] ∧
    (∀ s : String, "ERROR:".data.isPrefixOf (stripWs s.data) = true →
      parse_feedback_and_count_issues s =
        [("critical", 99), ("major", 99), ("minor", 99)]) ∧
    (∀ s : String, s ≠ "" → stripWs s.data = [] →
      parse_feedback_and_count_issues s = [("critical", 0), ("standard", 0)]) := by
  refine ⟨by decide, ?_, ?_⟩
  · intro s hs
    unfold parse_feedback_and_count_issues
    rw [if_pos (Or.inr hs)]
  · intro s hne hstrip
    unfold parse_feedback_and_count_issues
    rw [if_neg, extractBlock_eq_none_of_all_space (all_space_of_stripWs_eq_nil hstrip)]
    rintro (h | h)
    · exact data_ne_nil_of_ne_empty hne h
    · rw [hstrip] at h
      simp [List.isPrefixOf] at h

/-! ## Claim C8 -/

/-- C8: for every non-empty, non-error report, the parser returns the
all-zero counts when the delimited summary block is absent; when it is
present, the result maps exactly the keys `critical` and `standard`, each
holding the integer of the block's last matching `key: integer` pair
(keys matched after `strip().lower()`, overwriting the default zero), and
every unrecognized key in the block is ignored. -/
theorem c8_summary_block_scan (s : String) (h1 : s ≠ "")
    (h2 : ¬"ERROR:".data.isPrefixOf (stripWs s.data) = true) :
    (extractBlock s.data = none →
      parse_feedback_and_count_issues s = [("critical", 0), ("standard", 0)]) ∧
    ∀ block, extractBlock s.data = some block →
      parse_feedback_and_count_issues s =
        [("critical", lastReportedValue "critical" block),
         ("standard", lastReportedValue "standard" block)] := by
  have hcond : ¬(s.data = [] ∨
      "ERROR:".data.isPrefixOf (stripWs s.data) = true) := by
    rintro (h | h)
    · exact data_ne_nil_of_ne_empty h1 h
    · exact h2 h
  constructor
  · intro hb
    have hred : parse_feedback_and_count_issues s =
        [("critical", 0), ("standard", 0)] := by
      unfold parse_feedback_and_count_issues
      rw [if_neg hcond, hb]
    exact hred
  · intro block hb
    have hred : parse_feedback_and_count_issues s =
        (scanKV block).foldl
          (fun acc kv => setIfPresent acc (normKey kv.1) (natOfDigits (stripWs kv.2)))
          [("critical", 0), ("standard", 0)] := by
      unfold parse_feedback_and_count_issues
      rw [if_neg hcond, hb]
    rw [hred, counts_foldl_eq]
    unfold lastReportedValue
    rw [lastValue_foldl_eq, lastValue_foldl_eq]

/-- C8 (witness): a concrete report with a summary block containing a
recognized pair in mixed case, an unrecognized pair, and a later overwrite
of `critical`. -/
theorem c8_witness :
    ("x[FEEDBACK_SUMMARY]\nCritical: 2\nStandard: 5\nnoise: 7\ncritical: 4\n[END_FEEDBACK_SUMMARY]y" : String) ≠ "" ∧
    ((extractBlock "x[FEEDBACK_SUMMARY]\nCritical: 2\nStandard: 5\nnoise: 7\ncritical: 4\n[END_FEEDBACK_SUMMARY]y".data = none →
      parse_feedback_and_count_issues
        "x[FEEDBACK_SUMMARY]\nCritical: 2\nStandard: 5\nnoise: 7\ncritical: 4\n[END_FEEDBACK_SUMMARY]y" =
        [("critical", 0), ("standard", 0)]) ∧
    ∀ block, extractBlock "x[FEEDBACK_SUMMARY]\nCritical: 2\nStandard: 5\nnoise: 7\ncritical: 4\n[END_FEEDBACK_SUMMARY]y".data = some block →
      parse_feedback_and_count_issues
        "x[FEEDBACK_SUMMARY]\nCritical: 2\nStandard: 5\nnoise: 7\ncritical: 4\n[END_FEEDBACK_SUMMARY]y" =
        [("critical", lastReportedValue "critical" block),
         ("standard", lastReportedValue "standard" block)]) :=
  ⟨by decide,
   c8_summary_block_scan
     "x[FEEDBACK_SUMMARY]\nCritical: 2\nStandard: 5\nnoise: 7\ncritical: 4\n[END_FEEDBACK_SUMMARY]y"
     (by decide) (by decide)⟩

/-! ## Claim C5 -/

/-- C5 (counterexample): a table with one declared row and zero declared
columns is an "empty grid" in the claim's sense, yet the formatter emits a
non-empty degenerate block, not the empty text block the claim requires. -/
theorem c5_counterexample :
    _format_table_as_markdown ⟨1, 0, [], [⟨1, [0, 0, 1, 0, 1, 1, 0, 1]⟩]⟩ =
      some "\n### Table (Page 1)\n|  |\n|  |\n\n" ∧
    some "\n### Table (Page 1)\n|  |\n|  |\n\n" ≠ (some "" : Option String) := by
  constructor
  · rfl
  · decide

/-- C5 (amended): only the zero-declared-rows half of the claim holds: a
table with `row_count = 0` builds the empty grid, and the formatter returns
the empty block without consulting anything else; a zero-column grid with
positive rows instead yields the non-empty degenerate block above. -/
theorem c5_zero_rows_empty_block (t : DITable) (h : t.row_count = 0) :
    _format_table_as_markdown t = some "" := by
  have hfold : ∀ cells : List TableCell, cells.foldl placeCell [] = [] := by
    intro cells
    induction cells with
    | nil => rfl
    | cons c cs ih =>
      have hstep : placeCell [] c = [] := by
        simp [placeCell]
      rw [List.foldl_cons, hstep, ih]
  unfold _format_table_as_markdown
  rw [h]
  simp [hfold]

/-- C5 (witness): a concrete zero-row table, with cells that are all
silently dropped. -/
theorem c5_witness :
    (⟨0, 5, [⟨0, 0, "x"⟩], []⟩ : DITable).row_count = 0 ∧
    _format_table_as_markdown ⟨0, 5, [⟨0, 0, "x"⟩], []⟩ = some "" :=
  ⟨rfl, c5_zero_rows_empty_block ⟨0, 5, [⟨0, 0, "x"⟩], []⟩ rfl⟩

/-! ## Claim C4 -/

/-- C4 (counterexample): a single-point polygon has a fully degenerate box
(`xmin = xmax` and `ymin = ymax`), yet placed strictly inside a table's box
it satisfies the strict-inequality test and is classified as part of the
table — refuting "returns false against every table region". -/
theorem c4_counterexample :
    boxOf [(5 : ℚ), 5] = some ⟨5, 5, 5, 5⟩ ∧
    _is_element_in_regions [⟨1, [(5 : ℚ), 5]⟩]
      [⟨1, [0, 0, 10, 0, 10, 10, 0, 10]⟩] = some true := by
  decide

theorem regionOverlapLoop_degenerate (page : Int) (eb : Box) :
    ∀ trs : List BoundingRegion,
      (∀ tr ∈ trs, boxOf tr.polygon ≠ none) →
      ((eb.xmin = eb.xmax ∧ ∀ tr ∈ trs, ∀ tb : Box,
          boxOf tr.polygon = some tb → tb.xmin = tb.xmax) ∨
       (eb.ymin = eb.ymax ∧ ∀ tr ∈ trs, ∀ tb : Box,
          boxOf tr.polygon = some tb → tb.ymin = tb.ymax)) →
      regionOverlapLoop page eb trs = some false := by
  intro trs
  induction trs with
  | nil => intro _ _; rfl
  | cons tr rest ih =>
    intro hwf hdeg
    obtain ⟨tb, htb⟩ : ∃ tb, boxOf tr.polygon = some tb := by
      cases hb : boxOf tr.polygon with
      | none => exact absurd hb (hwf tr (List.mem_cons_self tr rest))
      | some tb => exact ⟨tb, rfl⟩
    have hov : boxesOverlap eb tb = false := by
      apply decide_eq_false
      rintro ⟨o1, o2, o3, o4⟩
      rcases hdeg with ⟨hx, hall⟩ | ⟨hy, hall⟩
      · have htx : tb.xmin = tb.xmax :=
          hall tr (List.mem_cons_self tr rest) tb htb
        rw [← hx, htx] at o2
        exact (lt_asymm o1) o2
      · have hty : tb.ymin = tb.ymax :=
          hall tr (List.mem_cons_self tr rest) tb htb
        rw [← hy, hty] at o4
        exact (lt_asymm o3) o4
    have ihr := ih
      (fun x hx => hwf x (List.mem_cons_of_mem tr hx))
      (by
        rcases hdeg with ⟨hx, hall⟩ | ⟨hy, hall⟩
        · exact Or.inl ⟨hx, fun x hx2 tb2 htb2 =>
            hall x (List.mem_cons_of_mem tr hx2) tb2 htb2⟩
        · exact Or.inr ⟨hy, fun x hx2 tb2 htb2 =>
            hall x (List.mem_cons_of_mem tr hx2) tb2 htb2⟩)
    unfold regionOverlapLoop
    by_cases hpg : tr.page_number ≠ page
    · rw [if_pos hpg]
      exact ihr
    · rw [if_neg hpg, htb]
      show (if boxesOverlap eb tb = true then some true
        else regionOverlapLoop page eb rest) = some false
      rw [hov]
      simpa using ihr

/-- C4 (amended): a degenerate element is not always separate from tables
(see the counterexample); what does hold is that the strict test can never
pass on an axis where both boxes are degenerate, so an element that is
degenerate on some axis is classified as separate from table regions that
are all degenerate on that same axis (provided every table polygon yields a
box, so the loop completes). -/
theorem c4_degenerate_overlap (elemRegions tableRegions : List BoundingRegion)
    (r : BoundingRegion) (eb : Box)
    (h1 : elemRegions.head? = some r)
    (h2 : boxOf r.polygon = some eb)
    (hwf : ∀ tr ∈ tableRegions, boxOf tr.polygon ≠ none)
    (hdeg :
      (eb.xmin = eb.xmax ∧ ∀ tr ∈ tableRegions, ∀ tb : Box,
        boxOf tr.polygon = some tb → tb.xmin = tb.xmax) ∨
      (eb.ymin = eb.ymax ∧ ∀ tr ∈ tableRegions, ∀ tb : Box,
        boxOf tr.polygon = some tb → tb.ymin = tb.ymax)) :
    _is_element_in_regions elemRegions tableRegions = some false := by
  unfold _is_element_in_regions
  rw [h1]
  show (match boxOf r.polygon with
    | none => none
    | some ebox => regionOverlapLoop r.page_number ebox tableRegions) = some false
  rw [h2]
  show regionOverlapLoop r.page_number eb tableRegions = some false
  exact regionOverlapLoop_degenerate r.page_number eb tableRegions hwf hdeg

/-- C4 (witness): a point element and a vertical-segment table region, both
degenerate in x. -/
theorem c4_witness :
    ([⟨1, [(5 : ℚ), 5]⟩] : List BoundingRegion).head? = some ⟨1, [(5 : ℚ), 5]⟩ ∧
    boxOf [(5 : ℚ), 5] = some ⟨5, 5, 5, 5⟩ ∧
    _is_element_in_regions [⟨1, [(5 : ℚ), 5]⟩] [⟨1, [3, 0, 3, 10]⟩] = some false :=
  ⟨rfl, by decide,
   c4_degenerate_overlap [⟨1, [(5 : ℚ), 5]⟩] [⟨1, [3, 0, 3, 10]⟩]
     ⟨1, [(5 : ℚ), 5]⟩ ⟨5, 5, 5, 5⟩ rfl (by decide) (by decide)
     (Or.inl ⟨by decide, by decide⟩)⟩

/-! ## Claim C3 -/

/-- C3 (counterexample): the claim predicts that a paragraph without a
bounding region is silently dropped while processing continues — so a
document holding only such a paragraph should still produce the header-only
stream.  In fact the classifier reports the paragraph as outside every
table, the reading-order tagging then indexes `bounding_regions[0]`, the
`IndexError` escapes to the per-document handler, and the whole document
yields the empty string. -/
theorem c3_counterexample :
    analyse_document_with_di "doc" ⟨[], [⟨"hello", []⟩]⟩ = "" ∧
    analyse_document_with_di "doc" ⟨[], []⟩ = "# Analysis of Document: doc\n\n" := by
  constructor
  · rfl
  · rfl

/-- A paragraph list containing a regionless paragraph always makes the
paragraphs loop raise (the classifier returns `False` for it, and the
reading-order tagging then indexes an empty region list). -/
theorem paraEntries_none_of_missing_region (trs : List BoundingRegion) :
    ∀ ps : List Paragraph, (∃ p ∈ ps, p.bounding_regions = []) →
      paraEntries trs ps = none := by
  intro ps
  induction ps with
  | nil =>
    rintro ⟨p, hp, _⟩
    cases hp
  | cons q rest ih =>
    rintro ⟨p, hp, hreg⟩
    rcases List.mem_cons.mp hp with rfl | hmem
    · have hclass : _is_element_in_regions p.bounding_regions trs = some false := by
        unfold _is_element_in_regions
        rw [hreg]
        rfl
      unfold paraEntries
      rw [hclass, hreg]
      rfl
    · cases hclass : _is_element_in_regions q.bounding_regions trs with
      | none =>
        unfold paraEntries
        rw [hclass]
        rfl
      | some b =>
        unfold paraEntries
        rw [hclass]
        cases b with
        | true => simpa using ih ⟨p, hmem, hreg⟩
        | false =>
          cases hh : q.bounding_regions.head? with
          | none => rfl
          | some r =>
            cases hy : r.polygon[1]? with
            | none => simp [hy]
            | some y => simp [hy, ih ⟨p, hmem, hreg⟩]

/-- A table list containing a regionless table always makes the tables
loop raise (`table.bounding_regions[0]` on an empty list). -/
theorem tableEntries_none_of_missing_region :
    ∀ ts : List DITable, (∃ t ∈ ts, t.bounding_regions = []) →
      tableEntries ts = none := by
  intro ts
  induction ts with
  | nil =>
    rintro ⟨t, ht, _⟩
    cases ht
  | cons t0 rest ih =>
    rintro ⟨t, ht, hreg⟩
    rcases List.mem_cons.mp ht with rfl | hmem
    · simp [tableEntries, hreg]
    · cases hr : t0.bounding_regions.head? with
      | none => simp [tableEntries, hr]
      | some r =>
        cases hy : r.polygon[1]? with
        | none => simp [tableEntries, hr, hy]
        | some y => simp [tableEntries, hr, hy, ih ⟨t, hmem, hreg⟩]

/-- C3 (amended): an element — paragraph or table — with no bounding
region is not silently dropped; the exception it causes (indexing
`bounding_regions[0]` at the reading-order tagging) is caught by the
per-document handler, which discards the whole reconstruction and returns
the empty string — no partial stream survives. -/
theorem c3_missing_region_empties_output (blob_name : String)
    (result : DIResult)
    (h : (∃ p ∈ result.paragraphs, p.bounding_regions = []) ∨
      (∃ t ∈ result.tables, t.bounding_regions = [])) :
    analyse_document_with_di blob_name result = "" := by
  have hbuild : buildElements result = none := by
    unfold buildElements
    rcases h with h | h
    · cases hte : tableEntries result.tables with
      | none => rfl
      | some te =>
        rw [paraEntries_none_of_missing_region _ _ h]
        rfl
    · rw [tableEntries_none_of_missing_region _ h]
      rfl
  have hgeo : analyseGeometric result = none := by
    unfold analyseGeometric
    rw [hbuild]
    rfl
  unfold analyse_document_with_di
  rw [hgeo]

/-- C3 (witness): both halves exercised — a document whose only paragraph
has no bounding region, and a document whose only table has no bounding
region; each yields the empty string. -/
theorem c3_witness :
    ((∃ p ∈ (⟨[], [⟨"hello", []⟩]⟩ : DIResult).paragraphs,
        p.bounding_regions = []) ∨
      (∃ t ∈ (⟨[], [⟨"hello", []⟩]⟩ : DIResult).tables,
        t.bounding_regions = [])) ∧
    analyse_document_with_di "doc" ⟨[], [⟨"hello", []⟩]⟩ = "" ∧
    ((∃ p ∈ (⟨[⟨1, 1, [], []⟩], []⟩ : DIResult).paragraphs,
        p.bounding_regions = []) ∨
      (∃ t ∈ (⟨[⟨1, 1, [], []⟩], []⟩ : DIResult).tables,
        t.bounding_regions = [])) ∧
    analyse_document_with_di "doc" ⟨[⟨1, 1, [], []⟩], []⟩ = "" :=
  ⟨Or.inl ⟨⟨"hello", []⟩, List.mem_cons_self _ _, rfl⟩,
   c3_missing_region_empties_output "doc" ⟨[], [⟨"hello", []⟩]⟩
     (Or.inl ⟨⟨"hello", []⟩, List.mem_cons_self _ _, rfl⟩),
   Or.inr ⟨⟨1, 1, [], []⟩, List.mem_cons_self _ _, rfl⟩,
   c3_missing_region_empties_output "doc" ⟨[⟨1, 1, [], []⟩], []⟩
     (Or.inr ⟨⟨1, 1, [], []⟩, List.mem_cons_self _ _, rfl⟩)⟩

/-! ## Claim C10 -/

/-- C10 (counterexample): the claim says every region of an element beyond
the first is ignored by reconstruction.  A table's second bounding region,
however, enters `table_regions` and can swallow a paragraph: truncating the
table's region list to its first region changes the reconstructed output. -/
theorem c10_counterexample :
    analyse_document_with_di "d"
      ⟨[⟨1, 1, [⟨0, 0, "C"⟩],
          [⟨1, [0, 0, 1, 0, 1, 1, 0, 1]⟩, ⟨1, [10, 10, 20, 10, 20, 20, 10, 20]⟩]⟩],
        [⟨"P", [⟨1, [12, 12, 18, 12, 18, 18, 12, 18]⟩]⟩]⟩ ≠
    analyse_document_with_di "d"
      ⟨[⟨1, 1, [⟨0, 0, "C"⟩], [⟨1, [0, 0, 1, 0, 1, 1, 0, 1]⟩]⟩],
        [⟨"P", [⟨1, [12, 12, 18, 12, 18, 18, 12, 18]⟩]⟩]⟩ := by
  decide

/-- The classifier consults only the first region of the element. -/
theorem elem_in_regions_head_congr (l1 l2 trs : List BoundingRegion)
    (h : l1.head? = l2.head?) :
    _is_element_in_regions l1 trs = _is_element_in_regions l2 trs := by
  unfold _is_element_in_regions
  rw [h]

/-- The paragraphs loop depends only on each paragraph's content and first
bounding region. -/
theorem paraEntries_congr (trs : List BoundingRegion)
    (ps qs : List Paragraph)
    (h : List.Forall₂ (fun p q => p.content = q.content ∧
      p.bounding_regions.head? = q.bounding_regions.head?) ps qs) :
    paraEntries trs ps = paraEntries trs qs := by
  induction h with
  | nil => rfl
  | cons hpq hrest ih =>
    obtain ⟨hc, hh⟩ := hpq
    unfold paraEntries
    rw [elem_in_regions_head_congr _ _ trs hh, hh, hc, ih]

/-- C10 (amended): a paragraph's own classification and reading-order key
are computed from its first listed region only — replacing any paragraph's
tail regions leaves the reconstruction unchanged.  (The restriction to
paragraphs is forced by the counterexample: a table's extra regions do
take part, as table areas, in classifying paragraphs.) -/
theorem c10_first_region_only (blob_name : String) (r1 r2 : DIResult)
    (ht : r1.tables = r2.tables)
    (hp : List.Forall₂ (fun p q => p.content = q.content ∧
      p.bounding_regions.head? = q.bounding_regions.head?)
      r1.paragraphs r2.paragraphs) :
    analyse_document_with_di blob_name r1 = analyse_document_with_di blob_name r2 := by
  have hbuild : buildElements r1 = buildElements r2 := by
    unfold buildElements
    rw [ht, paraEntries_congr _ _ _ hp]
  unfold analyse_document_with_di analyseGeometric
  rw [hbuild]

/-- C10 (witness): dropping the second region of a paragraph (even one on a
different page) leaves the output unchanged. -/
theorem c10_witness :
    (⟨[], [⟨"P", [⟨1, [0, 0, 2, 0, 2, 2, 0, 2]⟩, ⟨7, [(9 : ℚ), 9]⟩]⟩]⟩ : DIResult).tables =
      (⟨[], [⟨"P", [⟨1, [0, 0, 2, 0, 2, 2, 0, 2]⟩]⟩]⟩ : DIResult).tables ∧
    analyse_document_with_di "d"
        ⟨[], [⟨"P", [⟨1, [0, 0, 2, 0, 2, 2, 0, 2]⟩, ⟨7, [(9 : ℚ), 9]⟩]⟩]⟩ =
      analyse_document_with_di "d"
        ⟨[], [⟨"P", [⟨1, [0, 0, 2, 0, 2, 2, 0, 2]⟩]⟩]⟩ :=
  ⟨rfl,
   c10_first_region_only "d"
     ⟨[], [⟨"P", [⟨1, [0, 0, 2, 0, 2, 2, 0, 2]⟩, ⟨7, [(9 : ℚ), 9]⟩]⟩]⟩
     ⟨[], [⟨"P", [⟨1, [0, 0, 2, 0, 2, 2, 0, 2]⟩]⟩]⟩ rfl
     (List.Forall₂.cons ⟨rfl, rfl⟩ List.Forall₂.nil)⟩

/-! ## Claim C6 -/

/-- C6: the reconstructed element stream is sorted by the reading-order
preorder (page ascending, then top-edge y ascending), and elements with
equal keys keep their relative order from the pre-sort extraction list
(tables in extraction order, then kept paragraphs in extraction order):
the sort is stable. -/
theorem c6_sorted_and_stable (result : DIResult) (es : List ElemEntry)
    (h : buildElements result = some es) :
    List.Pairwise readingOrderLE (sortElements es) ∧
    ∀ a b : ElemEntry, [a, b].Sublist es → a.page = b.page →
      a.yPos = b.yPos → [a, b].Sublist (sortElements es) := by
  constructor
  · exact List.sorted_insertionSort readingOrderLE es
  · intro a b hsub hpg hy
    exact List.pair_sublist_insertionSort (Or.inr ⟨hpg, le_of_eq hy⟩) hsub

/-- C6 (witness): the specification's own example — `P1@(1,10)`,
`P2@(1,50)` and a table at `(1,30)` overlapping neither paragraph. -/
theorem c6_witness :
    buildElements
      ⟨[⟨1, 1, [⟨0, 0, "c"⟩], [⟨1, [0, 30, 4, 30, 4, 40, 0, 40]⟩]⟩],
       [⟨"P1", [⟨1, [0, 10, 4, 10, 4, 12, 0, 12]⟩]⟩,
        ⟨"P2", [⟨1, [0, 50, 4, 50, 4, 52, 0, 52]⟩]⟩]⟩ =
      some [.table ⟨1, 1, [⟨0, 0, "c"⟩], [⟨1, [0, 30, 4, 30, 4, 40, 0, 40]⟩]⟩ 1 30,
        .para "P1" 1 10, .para "P2" 1 50] ∧
    (List.Pairwise readingOrderLE
      (sortElements
        [.table ⟨1, 1, [⟨0, 0, "c"⟩], [⟨1, [0, 30, 4, 30, 4, 40, 0, 40]⟩]⟩ 1 30,
         .para "P1" 1 10, .para "P2" 1 50]) ∧
    ∀ a b : ElemEntry,
      [a, b].Sublist
        [.table ⟨1, 1, [⟨0, 0, "c"⟩], [⟨1, [0, 30, 4, 30, 4, 40, 0, 40]⟩]⟩ 1 30,
         .para "P1" 1 10, .para "P2" 1 50] →
      a.page = b.page → a.yPos = b.yPos →
      [a, b].Sublist
        (sortElements
          [.table ⟨1, 1, [⟨0, 0, "c"⟩], [⟨1, [0, 30, 4, 30, 4, 40, 0, 40]⟩]⟩ 1 30,
           .para "P1" 1 10, .para "P2" 1 50])) :=
  ⟨by decide,
   c6_sorted_and_stable
     ⟨[⟨1, 1, [⟨0, 0, "c"⟩], [⟨1, [0, 30, 4, 30, 4, 40, 0, 40]⟩]⟩],
      [⟨"P1", [⟨1, [0, 10, 4, 10, 4, 12, 0, 12]⟩]⟩,
       ⟨"P2", [⟨1, [0, 50, 4, 50, 4, 52, 0, 52]⟩]⟩]⟩
     [.table ⟨1, 1, [⟨0, 0, "c"⟩], [⟨1, [0, 30, 4, 30, 4, 40, 0, 40]⟩]⟩ 1 30,
      .para "P1" 1 10, .para "P2" 1 50] (by decide)⟩

/-! ## Claim C7 -/

/-- When some same-page table region passes the overlap test, the
classifier loop cannot answer `False` (it answers `True`, or raises on an
earlier malformed same-page region). -/
theorem regionOverlapLoop_ne_false (page : Int) (eb : Box) :
    ∀ trs : List BoundingRegion,
      trs.any (fun tr => tr.page_number == page &&
        match boxOf tr.polygon with
        | none => false
        | some tb => boxesOverlap eb tb) = true →
      regionOverlapLoop page eb trs ≠ some false := by
  intro trs
  induction trs with
  | nil => intro h; cases h
  | cons t rest ih =>
    intro h
    rw [List.any_cons, Bool.or_eq_true] at h
    unfold regionOverlapLoop
    by_cases hpt : t.page_number ≠ page
    · rw [if_pos hpt]
      rcases h with h | h
      · rw [Bool.and_eq_true, beq_iff_eq] at h
        exact absurd h.1 hpt
      · exact ih h
    · rw [if_neg hpt]
      cases hbt : boxOf t.polygon with
      | none => simp
      | some tb =>
        show (if boxesOverlap eb tb = true then some true
          else regionOverlapLoop page eb rest) ≠ some false
        by_cases hov : boxesOverlap eb tb = true
        · rw [if_pos hov]
          simp
        · rw [if_neg hov]
          apply ih
          rcases h with h | h
          · rw [Bool.and_eq_true] at h
            rw [hbt] at h
            exact absurd h.2 hov
          · exact h

/-- A paragraph that geometrically overlaps some same-page table region is
never classified as outside all tables. -/
theorem classifier_ne_false_of_overlap (q : Paragraph) (tables : List DITable)
    (h : paragraphOverlapsTables q tables = true) :
    _is_element_in_regions q.bounding_regions (allTableRegions tables) ≠
      some false := by
  unfold paragraphOverlapsTables at h
  unfold _is_element_in_regions
  cases hh : q.bounding_regions.head? with
  | none =>
    rw [hh] at h
    simp at h
  | some r =>
    rw [hh] at h
    have h2 : (match boxOf r.polygon with
      | none => false
      | some eb =>
        (allTableRegions tables).any fun tr =>
          tr.page_number == r.page_number &&
            match boxOf tr.polygon with
            | none => false
            | some tb => boxesOverlap eb tb) = true := h
    show (match boxOf r.polygon with
      | none => none
      | some ebox =>
        regionOverlapLoop r.page_number ebox (allTableRegions tables)) ≠
      some false
    cases hb : boxOf r.polygon with
    | none =>
      rw [hb] at h2
      simp at h2
    | some eb =>
      rw [hb] at h2
      show regionOverlapLoop r.page_number eb (allTableRegions tables) ≠
        some false
      exact regionOverlapLoop_ne_false r.page_number eb (allTableRegions tables) h2

/-- Every table-loop entry is a table entry (no paragraph content). -/
theorem tableEntries_no_para :
    ∀ (ts : List DITable) (tes : List ElemEntry), tableEntries ts = some tes →
      ∀ e ∈ tes, e.paraContent? = none := by
  intro ts
  induction ts with
  | nil =>
    intro tes h e he
    simp only [tableEntries] at h
    have h2 := Option.some.inj h
    subst h2
    cases he
  | cons t rest ih =>
    intro tes h e he
    cases hr : t.bounding_regions.head? with
    | none =>
      simp only [tableEntries, hr, Option.bind_eq_bind, Option.none_bind] at h
      exact Option.noConfusion h
    | some r =>
      cases hy : r.polygon[1]? with
      | none =>
        simp only [tableEntries, hr, hy, Option.bind_eq_bind, Option.some_bind, Option.none_bind] at h
        exact Option.noConfusion h
      | some y =>
        cases ht2 : tableEntries rest with
        | none =>
          simp only [tableEntries, hr, hy, ht2, Option.bind_eq_bind,
            Option.some_bind, Option.none_bind] at h
          exact Option.noConfusion h
        | some tes2 =>
          simp only [tableEntries, hr, hy, ht2, Option.bind_eq_bind, Option.some_bind, Option.pure_def] at h
          have h2 := Option.some.inj h
          subst h2
          rcases List.mem_cons.mp he with rfl | hmem
          · rfl
          · exact ih tes2 ht2 e hmem

/-- Every paragraph entry produced by the paragraphs loop comes from a
source paragraph with that content which the classifier reported as outside
all tables. -/
theorem paraEntries_sources (trs : List BoundingRegion) :
    ∀ (ps : List Paragraph) (pes : List ElemEntry),
      paraEntries trs ps = some pes →
      ∀ e ∈ pes, ∀ c, e.paraContent? = some c →
        ∃ q ∈ ps, q.content = c ∧
          _is_element_in_regions q.bounding_regions trs = some false := by
  intro ps
  induction ps with
  | nil =>
    intro pes h e he c hc
    simp only [paraEntries] at h
    have h2 := Option.some.inj h
    subst h2
    cases he
  | cons q rest ih =>
    intro pes h e he c hc
    cases hcl : _is_element_in_regions q.bounding_regions trs with
    | none =>
      simp only [paraEntries, hcl, Option.bind_eq_bind, Option.none_bind] at h
      exact Option.noConfusion h
    | some b =>
      cases b with
      | true =>
        simp only [paraEntries, hcl, Option.bind_eq_bind, Option.some_bind, if_pos] at h
        obtain ⟨q2, hq2, hcc, hcl2⟩ := ih pes h e he c hc
        exact ⟨q2, List.mem_cons_of_mem _ hq2, hcc, hcl2⟩
      | false =>
        cases hh : q.bounding_regions.head? with
        | none =>
          simp only [paraEntries, hcl, hh, Option.bind_eq_bind, Option.some_bind,
            Option.none_bind, Bool.false_eq_true, if_false] at h
          exact Option.noConfusion h
        | some r =>
          cases hy : r.polygon[1]? with
          | none =>
            simp only [paraEntries, hcl, hh, hy, Option.bind_eq_bind,
              Option.some_bind, Option.none_bind, Bool.false_eq_true, if_false] at h
            exact Option.noConfusion h
          | some y =>
            cases hrest : paraEntries trs rest with
            | none =>
              simp only [paraEntries, hcl, hh, hy, hrest, Option.bind_eq_bind,
                Option.some_bind, Option.none_bind, Bool.false_eq_true, if_false] at h
              exact Option.noConfusion h
            | some pes2 =>
              simp only [paraEntries, hcl, hh, hy, hrest, Option.bind_eq_bind,
                Option.some_bind, Option.pure_def, Bool.false_eq_true, if_false] at h
              have h2 := Option.some.inj h
              subst h2
              rcases List.mem_cons.mp he with rfl | hmem
              · refine ⟨q, List.mem_cons_self q rest, ?_, hcl⟩
                exact (Option.some.inj hc).symm ▸ rfl
              · obtain ⟨q2, hq2, hcc, hcl2⟩ := ih pes2 hrest e hmem c hc
                exact ⟨q2, List.mem_cons_of_mem _ hq2, hcc, hcl2⟩

/-- C7: a paragraph whose first region's box strictly overlaps the box of
at least one same-page table region contributes no paragraph entry to the
reconstructed stream — and (to rule out an unrelated identical string) if
every source paragraph with the same content also overlaps, no paragraph
entry of the stream carries that content at all. -/
theorem c7_overlapping_paragraph_excluded (result : DIResult) (p : Paragraph)
    (hp : p ∈ result.paragraphs)
    (hov : paragraphOverlapsTables p result.tables = true)
    (hall : ∀ q ∈ result.paragraphs, q.content = p.content →
      paragraphOverlapsTables q result.tables = true)
    (es : List ElemEntry) (h : buildElements result = some es) :
    ∀ e ∈ sortElements es, e.paraContent? ≠ some p.content := by
  intro e he hc
  have hmem : e ∈ es :=
    (List.perm_insertionSort readingOrderLE es).mem_iff.mp he
  cases hte : tableEntries result.tables with
  | none =>
    simp only [buildElements, hte, Option.bind_eq_bind, Option.none_bind] at h
    exact Option.noConfusion h
  | some te =>
    cases hpe : paraEntries (allTableRegions result.tables) result.paragraphs with
    | none =>
      simp only [buildElements, hte, hpe, Option.bind_eq_bind, Option.some_bind, Option.none_bind] at h
      exact Option.noConfusion h
    | some pe =>
      simp only [buildElements, hte, hpe, Option.bind_eq_bind, Option.some_bind, Option.pure_def] at h
      have h2 := Option.some.inj h
      subst h2
      rcases List.mem_append.mp hmem with hin | hin
      · rw [tableEntries_no_para result.tables te hte e hin] at hc
        cases hc
      · obtain ⟨q, hq, hqc, hqcl⟩ :=
          paraEntries_sources (allTableRegions result.tables)
            result.paragraphs pe hpe e hin p.content hc
        exact classifier_ne_false_of_overlap q result.tables
          (hall q hq hqc) hqcl

/-- C7 (witness): a paragraph lying on top of a table's box is excluded
from the stream (only the table entry remains). -/
theorem c7_witness :
    (⟨"high", [⟨1, [0, 0, 4, 0, 4, 1, 0, 1]⟩]⟩ : Paragraph) ∈
      (⟨[⟨1, 1, [⟨0, 0, "C"⟩], [⟨1, [0, 0, 1, 0, 1, 1, 0, 1]⟩]⟩],
        [⟨"high", [⟨1, [0, 0, 4, 0, 4, 1, 0, 1]⟩]⟩]⟩ : DIResult).paragraphs ∧
    paragraphOverlapsTables ⟨"high", [⟨1, [0, 0, 4, 0, 4, 1, 0, 1]⟩]⟩
      [⟨1, 1, [⟨0, 0, "C"⟩], [⟨1, [0, 0, 1, 0, 1, 1, 0, 1]⟩]⟩] = true ∧
    ∀ e ∈ sortElements
      [.table ⟨1, 1, [⟨0, 0, "C"⟩], [⟨1, [0, 0, 1, 0, 1, 1, 0, 1]⟩]⟩ 1 0],
      e.paraContent? ≠
        some (⟨"high", [⟨1, [0, 0, 4, 0, 4, 1, 0, 1]⟩]⟩ : Paragraph).content :=
  ⟨by decide, by decide,
   c7_overlapping_paragraph_excluded
     ⟨[⟨1, 1, [⟨0, 0, "C"⟩], [⟨1, [0, 0, 1, 0, 1, 1, 0, 1]⟩]⟩],
      [⟨"high", [⟨1, [0, 0, 4, 0, 4, 1, 0, 1]⟩]⟩]⟩
     ⟨"high", [⟨1, [0, 0, 4, 0, 4, 1, 0, 1]⟩]⟩
     (by decide) (by decide) (by decide)
     [.table ⟨1, 1, [⟨0, 0, "C"⟩], [⟨1, [0, 0, 1, 0, 1, 1, 0, 1]⟩]⟩ 1 0]
     (by decide)⟩

/-! ## Supporting lemmas: the merge planner -/

/-- Lookup through one dict update. -/
theorem lookupSec_updateLatest (s : Nat) (n : String) (i : Nat) (t : Nat) :
    ∀ acc : List (Nat × String × Nat),
      lookupSec t (updateLatest acc s n i) =
        stepSel t (lookupSec t acc) (s, n, i) := by
  intro acc
  induction acc with
  | nil =>
    by_cases hts : s = t <;> simp [updateLatest, lookupSec, stepSel, hts]
  | cons e rest ih =>
    by_cases hes : e.1 = s
    · by_cases hi : e.2.2 < i
      · by_cases hts : s = t
        · have het : e.1 = t := hes.trans hts
          simp [updateLatest, lookupSec, stepSel, hes, hi, hts, het,
            gt_iff_lt]
        · have het : ¬e.1 = t := fun h => hts (hes.symm.trans h)
          simp [updateLatest, lookupSec, stepSel, hes, hi, hts, het,
            gt_iff_lt]
      · by_cases hts : s = t
        · have het : e.1 = t := hes.trans hts
          simp [updateLatest, lookupSec, stepSel, hes, hi, hts, het,
            gt_iff_lt]
        · have het : ¬e.1 = t := fun h => hts (hes.symm.trans h)
          simp [updateLatest, lookupSec, stepSel, hes, hi, hts, het,
            gt_iff_lt]
    · by_cases het : e.1 = t
      · have hst : ¬s = t := fun h => hes (het.trans h.symm)
        have hts : ¬t = s := fun h => hst h.symm
        simp [updateLatest, lookupSec, stepSel, hes, het, hst, hts]
      · simp [updateLatest, lookupSec, stepSel, hes, het, ih]

/-- Lookup through the whole listing loop equals a per-section scalar fold
over the parsed entries. -/
theorem lookupSec_latest_fold (blobs : List String) :
    ∀ (acc : List (Nat × String × Nat)) (s : Nat),
      lookupSec s (blobs.foldl recordDraft acc) =
        (draftEntries blobs).foldl (stepSel s) (lookupSec s acc) := by
  induction blobs with
  | nil => intros; rfl
  | cons name rest ih =>
    intro acc s
    rw [List.foldl_cons]
    cases hp : parseSectionIter name with
    | none =>
      have hd : draftEntries (name :: rest) = draftEntries rest := by
        simp [draftEntries, List.filterMap_cons, hp]
      have hr : recordDraft acc name = acc := by
        simp [recordDraft, hp]
      rw [hd, hr]
      exact ih acc s
    | some si =>
      obtain ⟨sec, i⟩ := si
      have hd : draftEntries (name :: rest) =
          (sec, name, i) :: draftEntries rest := by
        simp [draftEntries, List.filterMap_cons, hp]
      have hr : recordDraft acc name = updateLatest acc sec name i := by
        simp [recordDraft, hp]
      rw [hd, hr, List.foldl_cons, ih, lookupSec_updateLatest]

/-- What the scalar fold reports is an entry of the section with an
iteration dominating all the section's entries (and the seed). -/
theorem stepSel_foldl_spec (s : Nat) :
    ∀ (es : List (Nat × String × Nat)) (cur : Option (String × Nat))
      (n : String) (i : Nat),
      es.foldl (stepSel s) cur = some (n, i) →
      ((s, n, i) ∈ es ∨ cur = some (n, i)) ∧
      (∀ e ∈ es, e.1 = s → e.2.2 ≤ i) ∧
      (∀ b : String × Nat, cur = some b → b.2 ≤ i) := by
  intro es
  induction es with
  | nil =>
    intro cur n i h
    rw [List.foldl_nil] at h
    refine ⟨Or.inr h, by simp, ?_⟩
    intro b hb
    rw [h] at hb
    exact le_of_eq (congrArg Prod.snd (Option.some.inj hb)).symm
  | cons e rest ih =>
    intro cur n i h
    rw [List.foldl_cons] at h
    obtain ⟨hmem, hbound, hcur⟩ := ih (stepSel s cur e) n i h
    by_cases hes : e.1 = s
    · cases hc : cur with
      | none =>
        have hstep : stepSel s cur e = some e.2 := by
          simp [stepSel, hes, hc]
        refine ⟨?_, ?_, ?_⟩
        · rcases hmem with hmem | hmem
          · exact Or.inl (List.mem_cons_of_mem e hmem)
          · rw [hstep] at hmem
            have he2 : e.2 = (n, i) := Option.some.inj hmem
            refine Or.inl ?_
            have : e = (s, n, i) := by
              rcases e with ⟨e1, e2⟩
              simp at hes he2
              rw [hes, he2]
            rw [← this]
            exact List.mem_cons_self e rest
        · intro e2 he2 hs2
          rcases List.mem_cons.mp he2 with rfl | hmem2
          · exact hcur e2.2 hstep
          · exact hbound e2 hmem2 hs2
        · intro b hb
          exact Option.noConfusion hb
      | some b0 =>
        by_cases hcmp : b0.2 < e.2.2
        · have hstep : stepSel s cur e = some e.2 := by
            simp [stepSel, hes, hc, gt_iff_lt, hcmp]
          refine ⟨?_, ?_, ?_⟩
          · rcases hmem with hmem | hmem
            · exact Or.inl (List.mem_cons_of_mem e hmem)
            · rw [hstep] at hmem
              have he2 : e.2 = (n, i) := Option.some.inj hmem
              refine Or.inl ?_
              have : e = (s, n, i) := by
                rcases e with ⟨e1, e2⟩
                simp at hes he2
                rw [hes, he2]
              rw [← this]
              exact List.mem_cons_self e rest
          · intro e2 he2 hs2
            rcases List.mem_cons.mp he2 with rfl | hmem2
            · exact hcur e2.2 hstep
            · exact hbound e2 hmem2 hs2
          · intro b hb
            have hbb : b = b0 := (Option.some.inj hb).symm
            have he2i : e.2.2 ≤ i := hcur e.2 hstep
            rw [hbb]
            exact le_trans (le_of_lt hcmp) he2i
        · have hstep : stepSel s cur e = some b0 := by
            simp [stepSel, hes, hc, gt_iff_lt, hcmp]
          refine ⟨?_, ?_, ?_⟩
          · rcases hmem with hmem | hmem
            · exact Or.inl (List.mem_cons_of_mem e hmem)
            · rw [hstep] at hmem
              exact Or.inr hmem
          · intro e2 he2 hs2
            rcases List.mem_cons.mp he2 with rfl | hmem2
            · have hb0i : b0.2 ≤ i := hcur b0 hstep
              exact le_trans (not_lt.mp hcmp) hb0i
            · exact hbound e2 hmem2 hs2
          · intro b hb
            have hbb : b = b0 := (Option.some.inj hb).symm
            rw [hbb]
            exact hcur b0 hstep
    · have hstep : stepSel s cur e = cur := by
        simp [stepSel, hes]
      refine ⟨?_, ?_, ?_⟩
      · rcases hmem with hmem | hmem
        · exact Or.inl (List.mem_cons_of_mem e hmem)
        · rw [hstep] at hmem
          exact Or.inr hmem
      · intro e2 he2 hs2
        rcases List.mem_cons.mp he2 with rfl | hmem2
        · exact absurd hs2 hes
        · exact hbound e2 hmem2 hs2
      · intro b hb
        rw [← hstep] at hb
        exact hcur b hb
  -- end

/-- A section with no parsed entry is left untouched by the scalar fold. -/
theorem stepSel_foldl_of_no_entry (s : Nat) :
    ∀ (es : List (Nat × String × Nat)) (cur : Option (String × Nat)),
      (∀ e ∈ es, e.1 ≠ s) → es.foldl (stepSel s) cur = cur := by
  intro es
  induction es with
  | nil => intro cur _; rfl
  | cons e rest ih =>
    intro cur h
    rw [List.foldl_cons]
    have hstep : stepSel s cur e = cur := by
      simp [stepSel, h e (List.mem_cons_self e rest)]
    rw [hstep]
    exact ih cur (fun x hx => h x (List.mem_cons_of_mem e hx))

/-- The scalar fold loses information only when there was none: a `none`
result means an empty seed and no entry for the section. -/
theorem stepSel_foldl_eq_none (s : Nat) :
    ∀ (es : List (Nat × String × Nat)) (cur : Option (String × Nat)),
      es.foldl (stepSel s) cur = none → cur = none ∧ ∀ e ∈ es, e.1 ≠ s := by
  intro es
  induction es with
  | nil =>
    intro cur h
    exact ⟨h, by simp⟩
  | cons e rest ih =>
    intro cur h
    rw [List.foldl_cons] at h
    obtain ⟨hstep, hrest⟩ := ih (stepSel s cur e) h
    by_cases hes : e.1 = s
    · exfalso
      cases hc : cur with
      | none =>
        rw [hc] at hstep
        simp [stepSel, hes] at hstep
      | some b =>
        rw [hc] at hstep
        by_cases hcmp : b.2 < e.2.2 <;> simp [stepSel, hes, hcmp] at hstep
    · have hcur : cur = none := by
        rw [← hstep]
        simp [stepSel, hes]
      refine ⟨hcur, ?_⟩
      intro x hx
      rcases List.mem_cons.mp hx with rfl | hx2
      · exact hes
      · exact hrest x hx2

/-- Characterization of what the listing loop retains per section: under
per-section distinct iterations, the retained draft is exactly the one with
the maximal iteration for its section. -/
theorem lookupSec_latestTable_iff (blobs : List String)
    (hdist : ∀ e1 ∈ draftEntries blobs, ∀ e2 ∈ draftEntries blobs,
      e1.1 = e2.1 → e1.2.2 = e2.2.2 → e1 = e2)
    (s : Nat) (n : String) (i : Nat) :
    lookupSec s (latestTable blobs) = some (n, i) ↔
      ((s, n, i) ∈ draftEntries blobs ∧
        ∀ e ∈ draftEntries blobs, e.1 = s → e.2.2 ≤ i) := by
  have hfold : lookupSec s (latestTable blobs) =
      (draftEntries blobs).foldl (stepSel s) none := by
    have h := lookupSec_latest_fold blobs [] s
    simpa [latestTable, lookupSec] using h
  constructor
  · intro h
    rw [hfold] at h
    obtain ⟨hmem, hbound, _⟩ := stepSel_foldl_spec s _ none n i h
    rcases hmem with hmem | hmem
    · exact ⟨hmem, hbound⟩
    · exact Option.noConfusion hmem
  · rintro ⟨hmem, hbound⟩
    rw [hfold]
    cases hres : (draftEntries blobs).foldl (stepSel s) none with
    | none =>
      obtain ⟨_, hno⟩ := stepSel_foldl_eq_none s _ none hres
      exact absurd rfl (hno (s, n, i) hmem)
    | some b =>
      obtain ⟨n2, i2⟩ := b
      obtain ⟨hmem2, hbound2, _⟩ := stepSel_foldl_spec s _ none n2 i2 hres
      rcases hmem2 with hmem2 | hmem2
      · have hi : i2 = i := le_antisymm (hbound _ hmem2 rfl) (hbound2 _ hmem rfl)
        have heq : (s, n, i) = ((s, n2, i2) : Nat × String × Nat) :=
          hdist (s, n, i) hmem (s, n2, i2) hmem2 rfl (by simp [hi])
        have hn : n = n2 := by
          have := congrArg (fun e : Nat × String × Nat => e.2.1) heq
          simpa using this
        rw [hn, hi]
      · exact Option.noConfusion hmem2

/-- Dict keys through one update: unchanged for a present section, appended
for a new one. -/
theorem keys_updateLatest (s : Nat) (n : String) (i : Nat) :
    ∀ acc : List (Nat × String × Nat),
      (updateLatest acc s n i).map (fun e => e.1) =
        if s ∈ acc.map (fun e => e.1) then acc.map (fun e => e.1)
        else acc.map (fun e => e.1) ++ [s] := by
  intro acc
  induction acc with
  | nil => simp [updateLatest]
  | cons e rest ih =>
    by_cases hes : e.1 = s
    · by_cases hi : e.2.2 < i <;>
        simp [updateLatest, hes, hi, gt_iff_lt, List.mem_cons]
    · have hne : ¬s = e.1 := fun h => hes h.symm
      by_cases hmem : s ∈ rest.map (fun e => e.1) <;>
        simp [updateLatest, hes, hne, hmem, List.mem_cons, ih]

/-- The listing loop never duplicates a section key. -/
theorem nodup_keys_latest_fold (blobs : List String) :
    ∀ acc : List (Nat × String × Nat),
      (acc.map (fun e => e.1)).Nodup →
      ((blobs.foldl recordDraft acc).map (fun e => e.1)).Nodup := by
  induction blobs with
  | nil => intro acc h; exact h
  | cons name rest ih =>
    intro acc h
    rw [List.foldl_cons]
    apply ih
    cases hp : parseSectionIter name with
    | none => simpa [recordDraft, hp] using h
    | some si =>
      obtain ⟨sec, i⟩ := si
      have hr : recordDraft acc name = updateLatest acc sec name i := by
        simp [recordDraft, hp]
      rw [hr, keys_updateLatest]
      by_cases hmem : sec ∈ acc.map (fun e => e.1)
      · rw [if_pos hmem]; exact h
      · rw [if_neg hmem]
        simp [List.nodup_append, h, hmem]

/-- A failed lookup means the key is absent. -/
theorem lookupSec_eq_none_iff (t : Nat) :
    ∀ l : List (Nat × String × Nat),
      lookupSec t l = none ↔ t ∉ l.map (fun e => e.1) := by
  intro l
  induction l with
  | nil => simp [lookupSec]
  | cons e rest ih =>
    by_cases he : e.1 = t
    · simp [lookupSec, he]
    · rw [lookupSec, if_neg he, ih, List.map_cons]
      constructor
      · intro h
        simp only [List.mem_cons]
        rintro (hh | hh)
        · exact he hh.symm
        · exact h hh
      · intro h hh
        exact h (List.mem_cons_of_mem _ hh)

/-- The retained sections are exactly the sections discovered among the
parseable names. -/
theorem mem_keys_latest_iff (blobs : List String) (s : Nat) :
    s ∈ (latestTable blobs).map (fun e => e.1) ↔
      s ∈ (draftEntries blobs).map (fun e => e.1) := by
  rw [← not_iff_not, ← lookupSec_eq_none_iff]
  have hfold : lookupSec s (latestTable blobs) =
      (draftEntries blobs).foldl (stepSel s) none := by
    have h := lookupSec_latest_fold blobs [] s
    simpa [latestTable, lookupSec] using h
  rw [hfold]
  constructor
  · intro h
    obtain ⟨_, hno⟩ := stepSel_foldl_eq_none s _ none h
    simp only [List.mem_map, not_exists]
    rintro x ⟨hx, hxs⟩
    exact hno x hx hxs
  · intro h
    apply stepSel_foldl_of_no_entry
    intro e he hs
    exact h (List.mem_map.mpr ⟨e, he, hs⟩)

/-- Membership in a unique-key association list is determined by lookup. -/
theorem mem_iff_lookupSec :
    ∀ (l : List (Nat × String × Nat)),
      (l.map (fun e => e.1)).Nodup →
      ∀ x : Nat × String × Nat, (x ∈ l ↔ lookupSec x.1 l = some x.2) := by
  intro l
  induction l with
  | nil => intro _ x; simp [lookupSec]
  | cons e rest ih =>
    intro h x
    rw [List.map_cons, List.nodup_cons] at h
    obtain ⟨hni, hnd⟩ := h
    constructor
    · intro hx
      rcases List.mem_cons.mp hx with rfl | hx2
      · simp [lookupSec]
      · have hx1 : ¬e.1 = x.1 := by
          intro hcontra
          exact hni (hcontra ▸ List.mem_map.mpr ⟨x, hx2, rfl⟩)
        rw [lookupSec, if_neg hx1]
        exact (ih hnd x).mp hx2
    · intro hl
      rw [lookupSec] at hl
      by_cases he : e.1 = x.1
      · rw [if_pos he] at hl
        have he2 : e.2 = x.2 := Option.some.inj hl
        have : e = x := by
          rcases e with ⟨e1, e2⟩
          rcases x with ⟨x1, x2⟩
          simp at he he2
          rw [he, he2]
        rw [← this]
        exact List.mem_cons_self e rest
      · rw [if_neg he] at hl
        exact List.mem_cons_of_mem e ((ih hnd x).mpr hl)

/-- The length of the retained dict equals the number of distinct
discovered section ids. -/
theorem length_latestTable (blobs : List String) :
    (latestTable blobs).length =
      ((draftEntries blobs).map (fun e => e.1)).toFinset.card := by
  have hnd : ((latestTable blobs).map (fun e => e.1)).Nodup :=
    nodup_keys_latest_fold blobs [] (by simp)
  have hlen : (latestTable blobs).length =
      ((latestTable blobs).map (fun e => e.1)).length :=
    (List.length_map _ _).symm
  rw [hlen, ← List.toFinset_card_of_nodup hnd]
  congr 1
  apply Finset.ext
  intro a
  simp only [List.mem_toFinset]
  exact mem_keys_latest_iff blobs a

/-! ## Claim C1 -/

/-- C1 (counterexample): drafts for sections `{1, 2, 4}` with
`TOTAL_SECTIONS = 3` — the discovered id set is not `{1, 2, 3}`, yet the
count check passes and a merged document is produced. -/
theorem c1_counterexample :
    merge_output_files_async 3 (fun _ => "X")
      ["output_s1_i1.md", "output_s2_i1.md", "output_s4_i1.md"] =
      some "X\n\n---\n\nX\n\n---\n\nX" ∧
    (draftEntries ["output_s1_i1.md", "output_s2_i1.md", "output_s4_i1.md"]).map
      (fun e => e.1) = [1, 2, 4] := by
  constructor
  · rfl
  · rfl

/-- C1 (amended): the merge planner fails (and produces no document) if and
only if the NUMBER of distinct discovered section ids differs from
`TOTAL_SECTIONS` — the check is `len(latest_iterations) != TOTAL_SECTIONS`,
a count, not a comparison with the set `{1, …, TOTAL_SECTIONS}`. -/
theorem c1_merge_count_check (total : Nat) (content : String → String)
    (blobs : List String) :
    merge_output_files_async total content blobs = none ↔
      ((draftEntries blobs).map (fun e => e.1)).toFinset.card ≠ total := by
  unfold merge_output_files_async
  rw [← length_latestTable]
  by_cases h : (latestTable blobs).length ≠ total
  · simp [h]
  · simp [h]

/-! ## Claim C9 -/

/-- Lists strictly sorted on their section key are determined by their
members. -/
theorem eq_of_pairwise_lt_of_mem_iff :
    ∀ l1 l2 : List (Nat × String × Nat),
      l1.Pairwise (fun a b => a.1 < b.1) →
      l2.Pairwise (fun a b => a.1 < b.1) →
      (∀ x, x ∈ l1 ↔ x ∈ l2) → l1 = l2 := by
  intro l1
  induction l1 with
  | nil =>
    intro l2 _ _ hmem
    cases l2 with
    | nil => rfl
    | cons b t =>
      exact absurd ((hmem b).mpr (List.mem_cons_self b t)) (by simp)
  | cons a t1 ih =>
    intro l2 h1 h2 hmem
    cases l2 with
    | nil =>
      exact absurd ((hmem a).mp (List.mem_cons_self a t1)) (by simp)
    | cons b t2 =>
      have hab : a = b := by
        have hma : a ∈ b :: t2 := (hmem a).mp (List.mem_cons_self a t1)
        have hmb : b ∈ a :: t1 := (hmem b).mpr (List.mem_cons_self b t2)
        rcases List.mem_cons.mp hma with h | h
        · exact h
        · rcases List.mem_cons.mp hmb with h' | h'
          · exact h'.symm
          · have hba : b.1 < a.1 := (List.pairwise_cons.mp h2).1 a h
            have hab2 : a.1 < b.1 := (List.pairwise_cons.mp h1).1 b h'
            exact absurd hab2 (Nat.lt_asymm hba)
      subst hab
      congr 1
      apply ih t2 (List.pairwise_cons.mp h1).2 (List.pairwise_cons.mp h2).2
      intro x
      constructor
      · intro hx
        rcases List.mem_cons.mp ((hmem x).mp (List.mem_cons_of_mem a hx))
            with rfl | hx2
        · exact absurd ((List.pairwise_cons.mp h1).1 x hx) (lt_irrefl _)
        · exact hx2
      · intro hx
        rcases List.mem_cons.mp ((hmem x).mpr (List.mem_cons_of_mem a hx))
            with rfl | hx2
        · exact absurd ((List.pairwise_cons.mp h2).1 x hx) (lt_irrefl _)
        · exact hx2

/-- The sorted items of the dict are strictly ascending in section id. -/
theorem sortedLatest_pairwise_lt (blobs : List String) :
    (sortedLatest blobs).Pairwise (fun a b => a.1 < b.1) := by
  have hs : (sortedLatest blobs).Pairwise sectionLE :=
    List.sorted_insertionSort sectionLE (latestTable blobs)
  have hnd0 : ((latestTable blobs).map (fun e => e.1)).Nodup :=
    nodup_keys_latest_fold blobs [] (by simp)
  have hperm : (sortedLatest blobs).Perm (latestTable blobs) :=
    List.perm_insertionSort sectionLE (latestTable blobs)
  have hnd : ((sortedLatest blobs).map (fun e => e.1)).Nodup :=
    ((hperm.map (fun e => e.1)).nodup_iff).mpr hnd0
  have hpne : (sortedLatest blobs).Pairwise (fun a b => a.1 ≠ b.1) :=
    List.pairwise_map.mp hnd
  exact (hs.and hpne).imp (fun h => lt_of_le_of_ne h.1 h.2)

/-- Membership in the sorted items, described through the entry list. -/
theorem mem_sortedLatest_iff (blobs : List String)
    (hdist : ∀ e1 ∈ draftEntries blobs, ∀ e2 ∈ draftEntries blobs,
      e1.1 = e2.1 → e1.2.2 = e2.2.2 → e1 = e2)
    (x : Nat × String × Nat) :
    x ∈ sortedLatest blobs ↔
      (x ∈ draftEntries blobs ∧
        ∀ e ∈ draftEntries blobs, e.1 = x.1 → e.2.2 ≤ x.2.2) := by
  have hperm : (sortedLatest blobs).Perm (latestTable blobs) :=
    List.perm_insertionSort sectionLE (latestTable blobs)
  have hnd : ((latestTable blobs).map (fun e => e.1)).Nodup :=
    nodup_keys_latest_fold blobs [] (by simp)
  rw [hperm.mem_iff, mem_iff_lookupSec (latestTable blobs) hnd x,
    lookupSec_latestTable_iff blobs hdist x.1 x.2.1 x.2.2]

/-- C9: the merge result is invariant under any permutation of the
discovery order; the planner retains, per section, exactly the draft with
the numerically greatest iteration; and a successful merge is the
concatenation, joined by the fixed separator, of the winning drafts'
contents in strictly ascending section order over exactly the discovered
sections.  The hypothesis `hdist` states the presupposition of the claim:
distinct drafts of one section carry distinct iteration numbers. -/
theorem c9_latest_iteration_merge (total : Nat) (content : String → String)
    (blobs blobs' : List String) (hperm : blobs.Perm blobs')
    (hdist : ∀ e1 ∈ draftEntries blobs, ∀ e2 ∈ draftEntries blobs,
      e1.1 = e2.1 → e1.2.2 = e2.2.2 → e1 = e2) :
    merge_output_files_async total content blobs' =
      merge_output_files_async total content blobs ∧
    (∀ (s : Nat) (n : String) (i : Nat),
      lookupSec s (latestTable blobs) = some (n, i) ↔
        ((s, n, i) ∈ draftEntries blobs ∧
          ∀ e ∈ draftEntries blobs, e.1 = s → e.2.2 ≤ i)) ∧
    ∀ out, merge_output_files_async total content blobs = some out →
      ∃ picks : List (Nat × String × Nat),
        (picks.map (fun e => e.1)).Pairwise (· < ·) ∧
        (∀ s : Nat, s ∈ picks.map (fun e => e.1) ↔
          s ∈ (draftEntries blobs).map (fun e => e.1)) ∧
        (∀ e ∈ picks, e ∈ draftEntries blobs ∧
          ∀ e2 ∈ draftEntries blobs, e2.1 = e.1 → e2.2.2 ≤ e.2.2) ∧
        out = String.intercalate mergeSeparator
          (picks.map (fun e => content e.2.1)) := by
  have hentries : (draftEntries blobs).Perm (draftEntries blobs') :=
    hperm.filterMap _
  have hdist' : ∀ e1 ∈ draftEntries blobs', ∀ e2 ∈ draftEntries blobs',
      e1.1 = e2.1 → e1.2.2 = e2.2.2 → e1 = e2 := by
    intro e1 h1 e2 h2
    exact hdist e1 (hentries.mem_iff.mpr h1) e2 (hentries.mem_iff.mpr h2)
  have hlen : (latestTable blobs').length = (latestTable blobs).length := by
    rw [length_latestTable, length_latestTable,
      List.toFinset_eq_of_perm _ _ ((hentries.map (fun e => e.1)).symm)]
  have hsorted_eq : sortedLatest blobs' = sortedLatest blobs := by
    apply eq_of_pairwise_lt_of_mem_iff _ _
      (sortedLatest_pairwise_lt blobs') (sortedLatest_pairwise_lt blobs)
    intro x
    rw [mem_sortedLatest_iff blobs' hdist' x, mem_sortedLatest_iff blobs hdist x]
    constructor
    · rintro ⟨hm, hb⟩
      exact ⟨hentries.mem_iff.mpr hm,
        fun e he hs => hb e (hentries.mem_iff.mp he) hs⟩
    · rintro ⟨hm, hb⟩
      exact ⟨hentries.mem_iff.mp hm,
        fun e he hs => hb e (hentries.mem_iff.mpr he) hs⟩
  refine ⟨?_, ?_, ?_⟩
  · unfold merge_output_files_async
    rw [hlen, hsorted_eq]
  · intro s n i
    exact lookupSec_latestTable_iff blobs hdist s n i
  · intro out hout
    refine ⟨sortedLatest blobs, ?_, ?_, ?_, ?_⟩
    · exact List.pairwise_map.mpr (sortedLatest_pairwise_lt blobs)
    · intro s
      have hp : (sortedLatest blobs).Perm (latestTable blobs) :=
        List.perm_insertionSort sectionLE (latestTable blobs)
      rw [(hp.map (fun e => e.1)).mem_iff]
      exact mem_keys_latest_iff blobs s
    · intro e he
      obtain ⟨hm, hb⟩ := (mem_sortedLatest_iff blobs hdist e).mp he
      exact ⟨hm, fun e2 he2 hs => hb e2 he2 hs⟩
    · unfold merge_output_files_async at hout
      by_cases hl : (latestTable blobs).length ≠ total
      · rw [if_pos hl] at hout
        exact Option.noConfusion hout
      · rw [if_neg hl] at hout
        exact (Option.some.inj hout).symm

/-- C9 (witness): three drafts discovered in reversed order; section 1 has
iterations 1 and 3, section 2 has iteration 1, `TOTAL_SECTIONS = 2`, and
retrieval returns the draft's own name as its content. -/
theorem c9_witness :
    (["output_s2_i1.md", "output_s1_i1.md", "output_s1_i3.md"] : List String).Perm
      ["output_s1_i3.md", "output_s1_i1.md", "output_s2_i1.md"] ∧
    (merge_output_files_async 2 (fun n => n)
        ["output_s1_i3.md", "output_s1_i1.md", "output_s2_i1.md"] =
      merge_output_files_async 2 (fun n => n)
        ["output_s2_i1.md", "output_s1_i1.md", "output_s1_i3.md"] ∧
    (∀ (s : Nat) (n : String) (i : Nat),
      lookupSec s (latestTable
          ["output_s2_i1.md", "output_s1_i1.md", "output_s1_i3.md"]) =
        some (n, i) ↔
        ((s, n, i) ∈ draftEntries
            ["output_s2_i1.md", "output_s1_i1.md", "output_s1_i3.md"] ∧
          ∀ e ∈ draftEntries
            ["output_s2_i1.md", "output_s1_i1.md", "output_s1_i3.md"],
            e.1 = s → e.2.2 ≤ i)) ∧
    ∀ out, merge_output_files_async 2 (fun n => n)
        ["output_s2_i1.md", "output_s1_i1.md", "output_s1_i3.md"] = some out →
      ∃ picks : List (Nat × String × Nat),
        (picks.map (fun e => e.1)).Pairwise (· < ·) ∧
        (∀ s : Nat, s ∈ picks.map (fun e => e.1) ↔
          s ∈ (draftEntries
            ["output_s2_i1.md", "output_s1_i1.md", "output_s1_i3.md"]).map
            (fun e => e.1)) ∧
        (∀ e ∈ picks, e ∈ draftEntries
            ["output_s2_i1.md", "output_s1_i1.md", "output_s1_i3.md"] ∧
          ∀ e2 ∈ draftEntries
            ["output_s2_i1.md", "output_s1_i1.md", "output_s1_i3.md"],
            e2.1 = e.1 → e2.2.2 ≤ e.2.2) ∧
        out = String.intercalate mergeSeparator
          (picks.map (fun e => (fun n : String => n) e.2.1))) :=
  ⟨(List.reverse_perm
      ["output_s2_i1.md", "output_s1_i1.md", "output_s1_i3.md"]).symm,
   c9_latest_iteration_merge 2 (fun n => n)
     ["output_s2_i1.md", "output_s1_i1.md", "output_s1_i3.md"]
     ["output_s1_i3.md", "output_s1_i1.md", "output_s2_i1.md"]
     ((List.reverse_perm
       ["output_s2_i1.md", "output_s1_i1.md", "output_s1_i3.md"]).symm)
     (by decide)⟩

/-- C2 (witness): a report whose stripped text starts with the error
sentinel short-circuits to the `critical`/`major`/`minor` sentinel; a
single-space report falls through and parses to zeros. -/
theorem c2_witness :
    "ERROR:".data.isPrefixOf (stripWs "  ERROR: bad".data) = true ∧
    parse_feedback_and_count_issues "  ERROR: bad" =
      [("critical", 99), ("major", 99), ("minor", 99)] ∧
    (" " : String) ≠ "" ∧ stripWs " ".data = [] ∧
    parse_feedback_and_count_issues " " = [("critical", 0), ("standard", 0)] :=
  ⟨by decide, c2_short_circuit.2.1 "  ERROR: bad" (by decide),
   by decide, by decide, c2_short_circuit.2.2 " " (by decide) (by decide)⟩
